import Mathlib

/-!
Verification of the expression evaluation engine of `acc_calc_mcp`
(`src/tools/calculator.rs`): locale-ambiguous number normalization,
tokenization with pre-rounding and percent policy, shunting-yard
conversion to postfix, postfix evaluation, and the calculate/validate
facade.

Modelling conventions:
* Rust `&str` / `String` values are modelled as `List Char`.
* Rust `f64` is modelled as `ℚ` with exact arithmetic; the numeric
  literals of the properties below are exactly representable, so the
  rational model agrees with the IEEE computation on them.
* Rust `Result<T, CalcError>` is `Except CalcError T`; `u32` is `ℕ`.
* The character-driven main loop of `tokenize_and_round` consumes at
  least one character per iteration, so it is embedded with a fuel
  parameter initialised to the input length, which never runs out on
  the branch that would matter (see `tokenize_and_round`).
-/

namespace AccCalc

/-- The apostrophe character `'`, one of the accepted thousands separators. -/
def apos : Char := Char.ofNat 39

/-- Token type of the calculator (enum `Token` in `calculator.rs`). -/
inductive Token where
  | Number (v : ℚ)
  | Add
  | Subtract
  | Multiply
  | Divide
  | LeftParen
  | RightParen
deriving DecidableEq, Repr

/-- Percent-handling policy (enum `PercentRounding` in `calculator.rs`). -/
inductive PercentRounding where
  | DivideBy100ThenRound
  | RoundThenDivideBy100
deriving DecidableEq, Repr

/-- Error type of the calculator (enum `CalcError` in `calculator.rs`). -/
inductive CalcError where
  | InvalidCharacter (c : Char)
  | MismatchedParens
  | InvalidExpression
  | DivisionByZero
  | UnexpectedEndOfExpression
deriving DecidableEq, Repr

/-- Rust `str::trim` restricted to the ASCII whitespace the engine can
meet: drop leading and trailing whitespace characters. -/
def trim (l : List Char) : List Char :=
  ((l.dropWhile Char.isWhitespace).reverse.dropWhile Char.isWhitespace).reverse

/-- Index of the last occurrence of `c` in `l` (Rust `str::rfind`). -/
def lastIdxOf (c : Char) : List Char → Option ℕ
  | [] => none
  | x :: xs =>
    match lastIdxOf c xs with
    | some i => some (i + 1)
    | none => if x = c then some 0 else none

/-- `lastIdxOf` with the `unwrap` of the Rust code (only used under a
`contains` guard, where the occurrence exists). -/
def lastIdxD (c : Char) (l : List Char) : ℕ :=
  (lastIdxOf c l).getD 0

/-- Rust `str::split(c)` on a single-character pattern. -/
def splitOnChar (c : Char) : List Char → List (List Char)
  | [] => [[]]
  | x :: xs =>
    if x = c then [] :: splitOnChar c xs
    else
      match splitOnChar c xs with
      | [] => [[x]]
      | h :: t => (x :: h) :: t

/-- `remove_thousand_separators`: delete every occurrence of each
separator (Rust does iterated `String::replace(sep, "")`). -/
def remove_thousand_separators (input : List Char) (separators : List Char) : List Char :=
  input.filter (fun c => !separators.contains c)

/-- Rust `String::replace(',', ".")`: map every comma to a dot. -/
def replaceCommaByDot (l : List Char) : List Char :=
  l.map (fun c => if c = ',' then '.' else c)

/-- `normalize_number` from `calculator.rs`: disambiguate thousands and
decimal separators and emit a canonical numeral string. -/
def normalize_number (input : List Char) : List Char :=
  if input = [] then input
  else
    let cleaned := trim input
    if cleaned.contains ',' && cleaned.contains '.' then
      -- both separators present: the rightmost one is the decimal point
      let last_comma := lastIdxD ',' cleaned
      let last_dot := lastIdxD '.' cleaned
      if last_comma < last_dot then
        remove_thousand_separators cleaned [',', apos, ' ']
      else
        replaceCommaByDot (remove_thousand_separators cleaned ['.', apos, ' '])
    else if cleaned.contains ',' then
      let comma_count := cleaned.count ','
      if comma_count = 1 then
        let parts := splitOnChar ',' cleaned
        if parts.length = 2 && (parts.getD 1 []).length ≤ 3
            && (parts.getD 1 []).all Char.isDigit then
          replaceCommaByDot cleaned
        else
          remove_thousand_separators cleaned [',', apos, ' ']
      else
        remove_thousand_separators cleaned [',', apos, ' ']
    else if cleaned.contains '.' then
      let dot_count := cleaned.count '.'
      if dot_count = 1 then cleaned
      else
        match (splitOnChar '.' cleaned).getLast? with
        | some last_part =>
          if last_part.length ≤ 3 && last_part.all Char.isDigit then
            let before_last_dot := cleaned.take (lastIdxD '.' cleaned)
            remove_thousand_separators before_last_dot ['.', apos, ' '] ++ '.' :: last_part
          else
            remove_thousand_separators cleaned ['.', apos, ' ']
        | none => cleaned
    else
      remove_thousand_separators cleaned [apos, ' ']

/-- Value of a list of ASCII digit characters read in base 10. -/
def digitsToNat (l : List Char) : ℕ :=
  l.foldl (fun n c => 10 * n + (c.toNat - ('0').toNat)) 0

/-- Rust `str::parse::<f64>` restricted to the character set reachable
from `consume_number`/`normalize_number` output (ASCII digits, `.`,
space, apostrophe; no sign, no exponent): a string parses iff it is
`digits`, `digits.digits?` or `.digits`, and its value is exact. -/
def parseNum (l : List Char) : Option ℚ :=
  let intPart := l.takeWhile Char.isDigit
  let rest := l.dropWhile Char.isDigit
  match rest with
  | [] => if l = [] then none else some (digitsToNat intPart)
  | '.' :: frac =>
    if frac.all Char.isDigit && !(intPart = [] && frac = []) then
      some ((digitsToNat intPart : ℚ) + (digitsToNat frac : ℚ) / 10 ^ frac.length)
    else none
  | _ => none

/-- Rust `f64::round`: nearest integer, ties away from zero. -/
def roundHalfAway (q : ℚ) : ℤ :=
  if 0 ≤ q then ⌊q + 1 / 2⌋ else -⌊-q + 1 / 2⌋

/-- `round_value` from `calculator.rs`: scale by `10^decimals`, round
half away from zero, scale back. -/
def round_value (value : ℚ) (decimals : ℕ) : ℚ :=
  let factor : ℚ := 10 ^ decimals
  (roundHalfAway (value * factor) : ℚ) / factor

/-- The percent branch of `tokenize_and_round`, shared by the positive
and negative literal paths of `calculator.rs`. -/
def applyPercent (strategy : PercentRounding) (num : ℚ) (decimals : ℕ) : ℚ :=
  match strategy with
  | .DivideBy100ThenRound => round_value (num / 100) decimals
  | .RoundThenDivideBy100 => round_value num decimals / 100

/-- The scanning loop of `consume_number`: consume digits, and
separator characters once a digit has been seen. Returns the consumed
run and the remaining characters. -/
def consume_number_aux (hasDigit : Bool) : List Char → List Char × List Char
  | [] => ([], [])
  | c :: cs =>
    if c.isDigit then
      let r := consume_number_aux true cs
      (c :: r.1, r.2)
    else if (c = '.' || c = ',' || c = ' ' || c = apos) && hasDigit then
      let r := consume_number_aux hasDigit cs
      (c :: r.1, r.2)
    else ([], c :: cs)

/-- `consume_number` from `calculator.rs`: consume one numeral run from
the character stream and normalize it when it holds a digit (with
`hasDigit = false` initially, the run is nonempty iff a digit was
seen). -/
def consume_number (l : List Char) : List Char × List Char :=
  let r := consume_number_aux false l
  if r.1 ≠ [] then (normalize_number r.1, r.2) else r

/-- The `is_unary` test of `tokenize_and_round`: a `-` begins a
negative literal iff no token was produced yet or the last token is an
operator or a left parenthesis. -/
def minus_is_unary (tokens : List Token) : Bool :=
  tokens.isEmpty ||
    match tokens.getLast? with
    | some .LeftParen | some .Add | some .Subtract
    | some .Multiply | some .Divide => true
    | _ => false

/-- The `while let Some(&c) = chars.peek()` loop of
`tokenize_and_round`. Every iteration of the Rust loop consumes at
least one character, so the loop is embedded with a fuel argument; with
fuel = length of the input the out-of-fuel branch is unreachable (it
only fires on nonempty input with zero fuel). -/
def tokenize_go (decimals : ℕ) (strategy : PercentRounding) :
    ℕ → List Char → List Token → Except CalcError (List Token)
  | _, [], tokens => .ok tokens
  | 0, _ :: _, _ => .error .InvalidExpression
  | fuel + 1, c :: cs, tokens =>
    if c.isDigit then
      let r := consume_number (c :: cs)
      match parseNum r.1 with
      | none => .error .InvalidExpression
      | some num =>
        match r.2 with
        | '%' :: rest =>
          tokenize_go decimals strategy fuel rest
            (tokens ++ [.Number (applyPercent strategy num decimals)])
        | rest =>
          tokenize_go decimals strategy fuel rest
            (tokens ++ [.Number (round_value num decimals)])
    else if c = '+' then
      tokenize_go decimals strategy fuel cs (tokens ++ [.Add])
    else if c = '-' then
      if minus_is_unary tokens then
        let r := consume_number cs
        if r.1 = [] then .error .InvalidExpression
        else
          match parseNum r.1 with
          | none => .error .InvalidExpression
          | some num =>
            match r.2 with
            | '%' :: rest =>
              tokenize_go decimals strategy fuel rest
                (tokens ++ [.Number (applyPercent strategy (-num) decimals)])
            | rest =>
              tokenize_go decimals strategy fuel rest
                (tokens ++ [.Number (round_value (-num) decimals)])
      else
        tokenize_go decimals strategy fuel cs (tokens ++ [.Subtract])
    else if c = '*' then
      tokenize_go decimals strategy fuel cs (tokens ++ [.Multiply])
    else if c = '/' then
      tokenize_go decimals strategy fuel cs (tokens ++ [.Divide])
    else if c = '(' then
      tokenize_go decimals strategy fuel cs (tokens ++ [.LeftParen])
    else if c = ')' then
      tokenize_go decimals strategy fuel cs (tokens ++ [.RightParen])
    else if c = ' ' || c = '\t' || c = '\n' then
      tokenize_go decimals strategy fuel cs tokens
    else .error (.InvalidCharacter c)

/-- `tokenize_and_round` from `calculator.rs`. -/
def tokenize_and_round (expr : List Char) (decimals : ℕ)
    (strategy : PercentRounding) : Except CalcError (List Token) :=
  tokenize_go decimals strategy expr.length expr []

/-- `precedence` from `calculator.rs`. -/
def precedence (token : Token) : ℕ :=
  match token with
  | .Add | .Subtract => 1
  | .Multiply | .Divide => 2
  | _ => 0

/-- The operator-case `while` loop of `shunt_to_rpn`: pop stack
operators with precedence ≥ the incoming operator's, stopping at a left
parenthesis. Returns the popped run (in pop order) and the remaining
stack (head = top of stack). -/
def popWhileGe (token : Token) : List Token → List Token × List Token
  | [] => ([], [])
  | t :: rest =>
    if t = .LeftParen then ([], t :: rest)
    else if precedence token ≤ precedence t then
      let r := popWhileGe token rest
      (t :: r.1, r.2)
    else ([], t :: rest)

/-- The right-parenthesis `while` loop of `shunt_to_rpn`: pop to output
until a left parenthesis is found and discarded; `none` when the stack
runs out (mismatched parentheses). -/
def popUntilLParen : List Token → Option (List Token × List Token)
  | [] => none
  | .LeftParen :: rest => some ([], rest)
  | t :: rest =>
    match popUntilLParen rest with
    | none => none
    | some r => some (t :: r.1, r.2)

/-- The token loop plus final drain of `shunt_to_rpn` (operator stack
modelled with head = top). -/
def shunt_go : List Token → List Token → List Token → Except CalcError (List Token)
  | [], output, stack =>
    if stack.contains .LeftParen then .error .MismatchedParens
    else .ok (output ++ stack)
  | t :: ts, output, stack =>
    match t with
    | .Number _ => shunt_go ts (output ++ [t]) stack
    | .LeftParen => shunt_go ts output (t :: stack)
    | .RightParen =>
      match popUntilLParen stack with
      | none => .error .MismatchedParens
      | some r => shunt_go ts (output ++ r.1) r.2
    | _ =>
      let r := popWhileGe t stack
      shunt_go ts (output ++ r.1) (t :: r.2)

/-- `shunt_to_rpn` from `calculator.rs`. -/
def shunt_to_rpn (tokens : List Token) : Except CalcError (List Token) :=
  shunt_go tokens [] []

/-- The f64 tolerance `1e-9`, used by the division guard and by
`validate`. -/
def EPS : ℚ := 1 / 1000000000

/-- The token loop of `evaluate_rpn` (operand stack with head = top):
push numbers; for an operator pop right then left operand and push the
result, guarding division. A parenthesis token after two successful
pops is `unreachable!()` in Rust and cannot arise from `shunt_to_rpn`
output; it is mapped to `InvalidExpression` here. -/
def evaluate_go : List Token → List ℚ → Except CalcError ℚ
  | [], [v] => .ok v
  | [], _ => .error .InvalidExpression
  | t :: ts, stack =>
    match t with
    | .Number n => evaluate_go ts (n :: stack)
    | _ =>
      match stack with
      | rhs :: lhs :: rest =>
        match t with
        | .Add => evaluate_go ts ((lhs + rhs) :: rest)
        | .Subtract => evaluate_go ts ((lhs - rhs) :: rest)
        | .Multiply => evaluate_go ts ((lhs * rhs) :: rest)
        | .Divide =>
          if |rhs| < EPS then .error .DivisionByZero
          else evaluate_go ts ((lhs / rhs) :: rest)
        | _ => .error .InvalidExpression
      | _ => .error .InvalidExpression

/-- `evaluate_rpn` from `calculator.rs`. -/
def evaluate_rpn (rpn_queue : List Token) : Except CalcError ℚ :=
  evaluate_go rpn_queue []

/-- `calculate` from `calculator.rs`: tokenize with pre-rounding, shunt
to postfix, evaluate, round the final result. -/
def calculate (expr : List Char) (decimals : ℕ)
    (rounding_strategy : PercentRounding) : Except CalcError ℚ :=
  match tokenize_and_round expr decimals rounding_strategy with
  | .error e => .error e
  | .ok tokens =>
    match shunt_to_rpn tokens with
    | .error e => .error e
    | .ok rpn_queue =>
      match evaluate_rpn rpn_queue with
      | .error e => .error e
      | .ok result => .ok (round_value result decimals)

/-- `validate` from `calculator.rs`: true iff `calculate` succeeds and
the result is within `1e-9` of the expected value; every error becomes
`false`. -/
def validate (expr : List Char) (expected : ℚ) (decimals : ℕ)
    (rounding_strategy : PercentRounding) : Bool :=
  match calculate expr decimals rounding_strategy with
  | .ok actual => decide (|actual - expected| < EPS)
  | .error _ => false

/-! ### Helper lemmas -/

/-- `roundHalfAway` fixes integers. -/
theorem roundHalfAway_intCast (n : ℤ) : roundHalfAway (n : ℚ) = n := by
  unfold roundHalfAway
  by_cases h : (0 : ℚ) ≤ (n : ℚ)
  · rw [if_pos h, Int.floor_int_add]
    norm_num
  · rw [if_neg h, show (-(n : ℚ)) = ((-n : ℤ) : ℚ) by push_cast; ring, Int.floor_int_add]
    norm_num

/-- A member of a list survives `dropWhile` when the predicate rejects
it. -/
theorem mem_dropWhile_of_mem {c : Char} {p : Char → Bool} {l : List Char}
    (h : c ∈ l) (hc : p c = false) : c ∈ l.dropWhile p := by
  induction l with
  | nil => simp at h
  | cons x xs ih =>
    rw [List.dropWhile_cons]
    by_cases hx : p x
    · rw [if_pos hx]
      rcases List.mem_cons.mp h with rfl | hmem
      · rw [hc] at hx; exact absurd hx (by simp)
      · exact ih hmem
    · rw [if_neg hx]
      exact h

/-- Non-whitespace members of a string survive `trim`. -/
theorem mem_trim {c : Char} {l : List Char} (h : c ∈ l)
    (hc : c.isWhitespace = false) : c ∈ trim l := by
  unfold trim
  rw [List.mem_reverse]
  exact mem_dropWhile_of_mem (List.mem_reverse.mpr (mem_dropWhile_of_mem h hc)) hc

/-- `trim` introduces no new characters. -/
theorem mem_of_mem_trim {c : Char} {l : List Char} (h : c ∈ trim l) : c ∈ l := by
  unfold trim at h
  rw [List.mem_reverse] at h
  have h2 := (List.dropWhile_sublist _).subset h
  rw [List.mem_reverse] at h2
  exact (List.dropWhile_sublist _).subset h2

/-- Splitting on a character yields one more part than there are
occurrences of the character. -/
theorem splitOnChar_length (c : Char) (l : List Char) :
    (splitOnChar c l).length = l.count c + 1 := by
  induction l with
  | nil => simp [splitOnChar]
  | cons x xs ih =>
    by_cases hx : x = c
    · subst hx
      simp [splitOnChar, List.count_cons, ih]
    · have hne : splitOnChar c xs ≠ [] := by
        intro hnil
        rw [hnil] at ih
        simp at ih
      rw [show splitOnChar c (x :: xs)
            = (match splitOnChar c xs with
               | [] => [[x]]
               | h :: t => (x :: h) :: t) by simp [splitOnChar, hx]]
      cases hsp : splitOnChar c xs with
      | nil => exact absurd hsp hne
      | cons h t =>
        rw [hsp] at ih
        simp only [List.length_cons] at ih ⊢
        rw [List.count_cons]
        simp [hx, ih]

/-! ### Claims -/

/-- Claim C8: the rounding policy is idempotent: for every value `x`
and every number of decimals `d`, rounding twice equals rounding once,
where `round_value` scales by `10^d`, rounds half away from zero and
scales back. -/
theorem round_value_idempotent :
    ∀ (x : ℚ) (d : ℕ), round_value (round_value x d) d = round_value x d := by
  intro x d
  have hf0 : (10 : ℚ) ^ d ≠ 0 := by positivity
  simp only [round_value]
  rw [div_mul_cancel₀ _ hf0, roundHalfAway_intCast]

/-- Claim C7: the two percent policies are not extensionally equal:
there is an expression and a decimals value on which both runs of
`calculate` succeed with different results (`49.5%` at 0 decimals gives
0 under divide-then-round and 1 under round-then-divide). -/
theorem percent_policies_differ :
    ∃ (expr : List Char) (d : ℕ) (v w : ℚ),
      calculate expr d .DivideBy100ThenRound = .ok v
        ∧ calculate expr d .RoundThenDivideBy100 = .ok w
        ∧ v ≠ w := by
  refine ⟨"49.5%".toList, 0, 0, 1, ?_, ?_, ?_⟩
  · with_unfolding_all rfl
  · with_unfolding_all rfl
  · norm_num

/-- Claim C10: once a digit has been seen, the scanner of
`consume_number` consumes a following space into the same numeric
literal, so two digit groups separated only by spaces merge into one
number: `calculate "1 2 + 3" = Ok 15` under every percent policy. -/
theorem greedy_number_consumption_spec :
    (∀ cs : List Char,
        consume_number_aux true (' ' :: cs)
          = (' ' :: (consume_number_aux true cs).1, (consume_number_aux true cs).2))
      ∧ (∀ p : PercentRounding, calculate ("1 2 + 3".toList) 0 p = .ok 15) := by
  constructor
  · intro cs
    show (if (' ').isDigit then _ else _) = _
    rw [if_neg (by decide), if_pos (by decide)]
  · intro p
    cases p
    · with_unfolding_all rfl
    · with_unfolding_all rfl

/-- Claim C2: `validate` returns true iff `calculate` succeeds with a
value within `1e-9` of the expected one, and every `calculate` error
makes `validate` return `false` (errors are never propagated: the
return type is a plain boolean). -/
theorem validate_spec :
    ∀ (expr : List Char) (expected : ℚ) (d : ℕ) (p : PercentRounding),
      (validate expr expected d p = true
          ↔ ∃ v, calculate expr d p = .ok v ∧ |v - expected| < EPS)
        ∧ (∀ e : CalcError, calculate expr d p = .error e
            → validate expr expected d p = false) := by
  intro expr expected d p
  constructor
  · unfold validate
    cases h : calculate expr d p with
    | ok v => simp
    | error e => simp
  · intro e he
    unfold validate
    rw [he]

/-- Witness for C2: on `5 / 0` (a division-by-zero error), `validate`
returns `false`. -/
theorem validate_spec_witness :
    validate ("5 / 0".toList) 0 0 .DivideBy100ThenRound = false :=
  (validate_spec ("5 / 0".toList) 0 0 .DivideBy100ThenRound).2
    .DivisionByZero (by with_unfolding_all rfl)

/-- Claim C4: in postfix evaluation a division whose right operand (the
first-popped one) is smaller than `1e-9` in absolute value fails with
`DivisionByZero`, and otherwise succeeds and pushes the quotient;
consequently `calculate "5 / 0"` fails with `DivisionByZero` under
every percent policy. -/
theorem division_guard_spec :
    ∀ (rhs lhs : ℚ) (rest : List ℚ) (ts : List Token),
      (|rhs| < EPS →
          evaluate_go (.Divide :: ts) (rhs :: lhs :: rest) = .error .DivisionByZero)
        ∧ (EPS ≤ |rhs| →
            evaluate_go (.Divide :: ts) (rhs :: lhs :: rest)
              = evaluate_go ts ((lhs / rhs) :: rest))
        ∧ (∀ p : PercentRounding,
            calculate ("5 / 0".toList) 0 p = .error .DivisionByZero) := by
  intro rhs lhs rest ts
  refine ⟨?_, ?_, ?_⟩
  · intro h
    simp only [evaluate_go]
    rw [if_pos h]
  · intro h
    simp only [evaluate_go]
    rw [if_neg (not_lt.mpr h)]
  · intro p
    cases p
    · with_unfolding_all rfl
    · with_unfolding_all rfl

/-- Counterexample to claim C1: on `1.2,3.4` the rightmost of the two
separators is `.`, yet the earlier `.` is not removed: the result is
`1.23.4`, not `123.4` as the claim dictates. -/
theorem normalize_number_both_seps_counterexample :
    normalize_number ("1.2,3.4".toList) = "1.23.4".toList
      ∧ normalize_number ("1.2,3.4".toList) ≠ "123.4".toList := by
  constructor
  · decide
  · decide

/-- Claim C1 (amended): when both `,` and `.` occur, the rightmost of
the two (in the whitespace-trimmed string) decides the style: if it is
`.`, the commas, apostrophes and spaces are removed (earlier dots are
kept); if it is `,`, the dots, apostrophes and spaces are removed and
every remaining comma is replaced by `.`. -/
theorem normalize_number_both_seps_spec :
    ∀ l : List Char, ',' ∈ l → '.' ∈ l →
      normalize_number l =
        (if lastIdxD ',' (trim l) < lastIdxD '.' (trim l) then
          remove_thousand_separators (trim l) [',', apos, ' ']
        else
          replaceCommaByDot (remove_thousand_separators (trim l) ['.', apos, ' '])) := by
  intro l h1 h2
  have hne : l ≠ [] := by rintro rfl; simp at h1
  have h1t : ',' ∈ trim l := mem_trim h1 (by decide)
  have h2t : '.' ∈ trim l := mem_trim h2 (by decide)
  have hb : ((trim l).contains ',' && (trim l).contains '.') = true := by
    simp [h1t, h2t]
  simp only [normalize_number]
  rw [if_neg hne, if_pos hb]

/-- Witness for C1 (amended): the US-style numeral `1,234.56`
normalizes to `1234.56`. -/
theorem normalize_number_both_seps_spec_witness :
    normalize_number ("1,234.56".toList) = "1234.56".toList := by
  have h := normalize_number_both_seps_spec ("1,234.56".toList) (by decide) (by decide)
  rw [h]
  decide

/-- Counterexample to claim C5: `12,` has exactly one comma whose
trailing group is empty (zero digits), so the claim requires the comma
to be stripped, but the code replaces it by a dot: the result is `12.`,
not `12`. -/
theorem normalize_number_comma_only_counterexample :
    normalize_number ("12,".toList) = "12.".toList
      ∧ normalize_number ("12,".toList) ≠ "12".toList := by
  constructor
  · decide
  · decide

/-- Claim C5 (amended): for a string containing `,` but no `.`, the
comma is replaced by `.` iff (after whitespace-trimming) there is
exactly one comma and the text after it is at most 3 characters, all
ASCII digits — including the empty group after a trailing comma;
otherwise all commas, spaces and apostrophes are stripped. -/
theorem normalize_number_comma_only_spec :
    ∀ l : List Char, ',' ∈ l → '.' ∉ l →
      normalize_number l =
        (if (trim l).count ',' = 1
            ∧ ((splitOnChar ',' (trim l)).getD 1 []).length ≤ 3
            ∧ ((splitOnChar ',' (trim l)).getD 1 []).all Char.isDigit = true then
          replaceCommaByDot (trim l)
        else
          remove_thousand_separators (trim l) [',', apos, ' ']) := by
  intro l h1 h2
  have hne : l ≠ [] := by rintro rfl; simp at h1
  have h1t : ',' ∈ trim l := mem_trim h1 (by decide)
  have h2t : '.' ∉ trim l := fun h => h2 (mem_of_mem_trim h)
  have hcm : (trim l).contains ',' = true := by simpa using h1t
  have hdot : (trim l).contains '.' = false := by simpa using h2t
  have hb : ((trim l).contains ',' && (trim l).contains '.') = false := by
    rw [hdot, Bool.and_false]
  simp only [normalize_number]
  rw [if_neg hne, hb]
  simp only [Bool.false_eq_true, if_false, hcm, if_true]
  by_cases hcount : (trim l).count ',' = 1
  · have hlen : (splitOnChar ',' (trim l)).length = 2 := by
      rw [splitOnChar_length, hcount]
    by_cases hA : ((splitOnChar ',' (trim l)).getD 1 []).length ≤ 3
    <;> by_cases hB : ((splitOnChar ',' (trim l)).getD 1 []).all Char.isDigit = true
    <;> simp [hcount, hlen, hA, hB]
  · simp [hcount]

/-- Witness for C5 (amended): `123,45` (one comma, two trailing digits)
becomes `123.45`. -/
theorem normalize_number_comma_only_spec_witness :
    normalize_number ("123,45".toList) = "123.45".toList := by
  have h := normalize_number_comma_only_spec ("123,45".toList) (by decide) (by decide)
  rw [h]
  decide

/-- The condition under which the operator case of `shunt_to_rpn` keeps
popping: the stack top is not a left parenthesis and its precedence is
at least the incoming operator's. -/
def shouldPop (token t : Token) : Bool :=
  !(t == Token.LeftParen) && decide (precedence token ≤ precedence t)

/-- Claim C3: the precedence table gives 1 to `+`/`-` and 2 to `*`/`/`;
on a binary operator the converter pops exactly the maximal stack
prefix of non-parenthesis operators of precedence ≥ the incoming one
(left-associativity for equal precedence); hence
`calculate "1 + 2 * 3" = Ok 7` and `calculate "(1 + 2) * 3" = Ok 9`
under every percent policy. -/
theorem shunting_precedence_spec :
    precedence .Add = 1 ∧ precedence .Subtract = 1
      ∧ precedence .Multiply = 2 ∧ precedence .Divide = 2
      ∧ (∀ (token : Token) (stack : List Token),
          popWhileGe token stack
            = (stack.takeWhile (shouldPop token), stack.dropWhile (shouldPop token)))
      ∧ (∀ p : PercentRounding,
          calculate ("1 + 2 * 3".toList) 0 p = .ok 7
            ∧ calculate ("(1 + 2) * 3".toList) 0 p = .ok 9) := by
  refine ⟨rfl, rfl, rfl, rfl, ?_, ?_⟩
  · intro token stack
    induction stack with
    | nil => simp [popWhileGe]
    | cons t rest ih =>
      by_cases h1 : t = Token.LeftParen
      · subst h1
        simp [popWhileGe, shouldPop]
      · by_cases h2 : precedence token ≤ precedence t
        · simp [popWhileGe, shouldPop, h1, h2, List.takeWhile_cons, List.dropWhile_cons, ih]
        · simp [popWhileGe, shouldPop, h1, h2, List.takeWhile_cons, List.dropWhile_cons]
  · intro p
    cases p
    · exact ⟨by with_unfolding_all rfl, by with_unfolding_all rfl⟩
    · exact ⟨by with_unfolding_all rfl, by with_unfolding_all rfl⟩

/-- When the stream does not start with a digit, `consume_number`
consumes nothing. -/
theorem consume_number_eq_nil (cs : List Char)
    (h : ∀ c, cs.head? = some c → c.isDigit = false) :
    (consume_number cs).1 = [] := by
  cases cs with
  | nil => rfl
  | cons c cs2 =>
    have hc := h c rfl
    simp [consume_number, consume_number_aux, hc]

/-- Claim C6: a scanned `-` is treated as unary iff the token list so
far is empty or ends in an operator or left parenthesis (part 1);
a unary `-` not immediately followed by a digit makes tokenization fail
with `InvalidExpression` (part 2); a binary `-` is the subtraction
operator (part 3); a unary `-` followed by a digit begins a (negative)
numeric literal: unless the literal is malformed, a single `Number`
token is appended (part 4). -/
theorem minus_disambiguation_spec :
    ∀ (fuel : ℕ) (cs : List Char) (toks : List Token) (d : ℕ) (p : PercentRounding),
      (minus_is_unary toks = true
          ↔ toks = [] ∨ toks.getLast? = some .Add ∨ toks.getLast? = some .Subtract
              ∨ toks.getLast? = some .Multiply ∨ toks.getLast? = some .Divide
              ∨ toks.getLast? = some .LeftParen)
        ∧ (minus_is_unary toks = true → (∀ c, cs.head? = some c → c.isDigit = false)
            → tokenize_go d p (fuel + 1) ('-' :: cs) toks = .error .InvalidExpression)
        ∧ (minus_is_unary toks = false
            → tokenize_go d p (fuel + 1) ('-' :: cs) toks
                = tokenize_go d p fuel cs (toks ++ [.Subtract]))
        ∧ (minus_is_unary toks = true → ∀ c cs2, cs = c :: cs2 → c.isDigit = true
            → tokenize_go d p (fuel + 1) ('-' :: cs) toks = .error .InvalidExpression
              ∨ ∃ (q : ℚ) (rest : List Char),
                  tokenize_go d p (fuel + 1) ('-' :: cs) toks
                    = tokenize_go d p fuel rest (toks ++ [.Number q])) := by
  intro fuel cs toks d p
  refine ⟨?_, ?_, ?_, ?_⟩
  · cases hg : toks.getLast? with
    | none =>
      have : toks = [] := by
        cases toks with
        | nil => rfl
        | cons x xs => simp [List.getLast?_concat] at hg
      subst this
      simp [minus_is_unary]
    | some t =>
      have hne : toks ≠ [] := by rintro rfl; simp at hg
      cases t <;> simp [minus_is_unary, hg, List.isEmpty_iff, hne]
  · intro hu hnod
    have hnil : (consume_number cs).1 = [] := consume_number_eq_nil cs hnod
    simp only [tokenize_go]
    rw [if_neg (by decide : ¬(('-').isDigit = true)),
      if_neg (by decide : ¬('-' = '+')), if_pos trivial, if_pos hu, if_pos hnil]
  · intro hu
    simp only [tokenize_go]
    rw [if_neg (by decide : ¬(('-').isDigit = true)),
      if_neg (by decide : ¬('-' = '+')), if_pos trivial,
      if_neg (by rw [hu]; exact Bool.false_ne_true)]
  · intro hu c cs2 hcs hdig
    subst hcs
    simp only [tokenize_go]
    rw [if_neg (by decide : ¬(('-').isDigit = true)),
      if_neg (by decide : ¬('-' = '+')), if_pos trivial, if_pos hu]
    by_cases hnil : (consume_number (c :: cs2)).1 = []
    · rw [if_pos hnil]
      exact Or.inl rfl
    · rw [if_neg hnil]
      split
      · exact Or.inl rfl
      · right
        split <;> exact ⟨_, _, rfl⟩

/-- Witness for C6: with an empty token list, `- )` fails with
`InvalidExpression`; after a number token, `-` acts as subtraction. -/
theorem minus_disambiguation_spec_witness :
    tokenize_go 0 .DivideBy100ThenRound 1 ['-', ')'] [] = .error .InvalidExpression
      ∧ tokenize_go 0 .DivideBy100ThenRound 1 ['-'] [.Number 1]
          = tokenize_go 0 .DivideBy100ThenRound 0 [] [.Number 1, .Subtract] := by
  constructor
  · exact (minus_disambiguation_spec 0 [')'] [] 0 .DivideBy100ThenRound).2.1
      (by rfl) (by intro c h; cases h; rfl)
  · exact (minus_disambiguation_spec 0 [] [.Number 1] 0 .DivideBy100ThenRound).2.2.1
      (by rfl)

/-- Witness for C4: dividing by 0 errors, dividing 6 by 2 pushes the
quotient. -/
theorem division_guard_spec_witness :
    evaluate_go [.Divide] [0, 5] = .error .DivisionByZero
      ∧ evaluate_go [.Divide] [2, 6] = evaluate_go [] [6 / 2] :=
  ⟨(division_guard_spec 0 5 [] []).1 (by with_unfolding_all decide),
   (division_guard_spec 2 6 [] []).2.1 (by with_unfolding_all decide)⟩

/-- The tokenizer never produces `UnexpectedEndOfExpression`. -/
theorem tokenize_go_ne_ueoe (d : ℕ) (p : PercentRounding) :
    ∀ (fuel : ℕ) (chars : List Char) (toks : List Token),
      tokenize_go d p fuel chars toks ≠ .error .UnexpectedEndOfExpression := by
  intro fuel
  induction fuel with
  | zero =>
    intro chars toks
    cases chars <;> simp [tokenize_go]
  | succ n ih =>
    intro chars toks
    cases chars with
    | nil => simp [tokenize_go]
    | cons c cs =>
      simp only [tokenize_go]
      split_ifs <;>
        first
          | apply ih
          | (simp; done)
          | (intro hm
             split at hm
             · simp at hm
             · split at hm <;> exact ih _ _ hm)

/-- The shunting-yard converter never produces
`UnexpectedEndOfExpression`. -/
theorem shunt_go_ne_ueoe :
    ∀ (ts output stack : List Token),
      shunt_go ts output stack ≠ .error .UnexpectedEndOfExpression := by
  intro ts
  induction ts with
  | nil =>
    intro output stack
    simp only [shunt_go]
    split <;> simp
  | cons t ts ih =>
    intro output stack
    cases t <;> simp only [shunt_go] <;>
      first
        | apply ih
        | (split <;> first | apply ih | (simp; done))

/-- The postfix evaluator never produces `UnexpectedEndOfExpression`. -/
theorem evaluate_go_ne_ueoe :
    ∀ (ts : List Token) (stack : List ℚ),
      evaluate_go ts stack ≠ .error .UnexpectedEndOfExpression := by
  intro ts
  induction ts with
  | nil =>
    intro stack
    cases stack with
    | nil => simp [evaluate_go]
    | cons v rest => cases rest <;> simp [evaluate_go]
  | cons t ts ih =>
    intro stack
    cases stack with
    | nil =>
      cases t <;> simp only [evaluate_go] <;> first | apply ih | (simp; done)
    | cons rhs s2 =>
      cases s2 with
      | nil =>
        cases t <;> simp only [evaluate_go] <;> first | apply ih | (simp; done)
      | cons lhs rest =>
        cases t <;> simp only [evaluate_go] <;>
          first
            | apply ih
            | (simp; done)
            | (split <;> first | apply ih | (simp; done))

/-- Claim C9: `calculate` never returns the `UnexpectedEndOfExpression`
error variant, for any expression, decimals and percent policy. -/
theorem unexpected_end_never_returned :
    ∀ (expr : List Char) (d : ℕ) (p : PercentRounding),
      calculate expr d p ≠ .error .UnexpectedEndOfExpression := by
  intro expr d p hc
  unfold calculate at hc
  cases h1 : tokenize_and_round expr d p with
  | error e =>
    rw [h1] at hc
    simp only [Except.error.injEq] at hc
    subst hc
    unfold tokenize_and_round at h1
    exact tokenize_go_ne_ueoe d p _ _ _ h1
  | ok toks =>
    rw [h1] at hc
    simp only [] at hc
    cases h2 : shunt_to_rpn toks with
    | error e =>
      rw [h2] at hc
      simp only [Except.error.injEq] at hc
      subst hc
      unfold shunt_to_rpn at h2
      exact shunt_go_ne_ueoe _ _ _ h2
    | ok rpn =>
      rw [h2] at hc
      simp only [] at hc
      cases h3 : evaluate_rpn rpn with
      | error e =>
        rw [h3] at hc
        simp only [Except.error.injEq] at hc
        subst hc
        unfold evaluate_rpn at h3
        exact evaluate_go_ne_ueoe _ _ h3
      | ok r =>
        rw [h3] at hc
        exact Except.noConfusion hc

end AccCalc
